import Mathlib

/-!
Verification of the rs-nano64 identifier library: a shallow embedding of the
bit layout, codec, stateless generator and monotonic sequencer from
`src/lib.rs`, `src/hex.rs`, `src/nano64.rs`, `src/monotonic_refs.rs` and
`src/nano64_encrypted.rs`, together with theorems settling the frozen claims.

Machine integers are modelled as `Nat`: every Rust `u64` in these functions is
produced by masking with a constant below `2 ^ 64`, so no wrap-around ever
occurs and explicit `% 2 ^ 64` is not needed except as a domain hypothesis
(`v < 2 ^ 64`) on universally quantified values.  Rust strings are modelled as
`List Char`; the inputs the claims are about are ASCII.  Fallible Rust code
(`Result`) becomes `Except`; a Rust panic (out-of-bounds slice index) is
modelled by an explicit `panic` constructor in the result type.
-/

namespace RsNano64

/-- Error enum, from `src/errors.rs` (`Nano64Error`). -/
inductive Nano64Error where
| Error (msg : String)
| TimeStampRangeError
| TimeStampExceedsBitRange (got : Nat)
| RNGOutOfBounds (got : Nat)
| HexStringNotEvenCharacters
| HexStringContainsNonHexChars
deriving DecidableEq

/-- `IV_LENGTH`, from `src/lib.rs`. -/
def IV_LENGTH : Nat := 12

/-- `PAYLOAD_LENGTH = IV_LENGTH + 8 + 16`, from `src/lib.rs`. -/
def PAYLOAD_LENGTH : Nat := IV_LENGTH + 8 + 16

/-- `TIMESTAMP_BITS`, from `src/lib.rs`. -/
def TIMESTAMP_BITS : Nat := 44

/-- `RANDOM_BITS`, from `src/lib.rs`. -/
def RANDOM_BITS : Nat := 20

/-- `TIMESTAMP_SHIFT = RANDOM_BITS`, from `src/lib.rs`. -/
def TIMESTAMP_SHIFT : Nat := RANDOM_BITS

/-- `TIMESTAMP_MASK = (1 << TIMESTAMP_BITS) - 1`, from `src/lib.rs`. -/
def TIMESTAMP_MASK : Nat := (1 <<< TIMESTAMP_BITS) - 1

/-- `RANDOM_MASK = (1 << RANDOM_BITS) - 1`, from `src/lib.rs`. -/
def RANDOM_MASK : Nat := (1 <<< RANDOM_BITS) - 1

/-- `MAX_TIMESTAMP = TIMESTAMP_MASK`, from `src/lib.rs`. -/
def MAX_TIMESTAMP : Nat := TIMESTAMP_MASK

/-- The identifier, from `src/nano64.rs` (`struct Nano64 { value: u64 }`). -/
structure Nano64 where
  value : Nat
deriving DecidableEq

deriving instance DecidableEq for Except

/-- `u64::to_be_bytes`: the 8 bytes of `v`, most significant first. -/
def u64ToBeBytes (v : Nat) : List Nat :=
  (List.range 8).map (fun i => (v >>> (8 * (7 - i))) &&& 255)

/-- `u64::from_be_bytes`: fold the bytes back, most significant first. -/
def u64FromBeBytes (bytes : List Nat) : Nat :=
  bytes.foldl (fun acc b => acc * 256 + b) 0

/-- `RandomNumberGeneratorImpl`, from `src/lib.rs`: a function from a bit
count to a random value or an error.  The Rust result type is `u32`; the value
is masked to 20 bits at every use, so modelling it as `Nat` loses nothing. -/
abbrev RandomNumberGeneratorImpl := Nat → Except Nano64Error Nat

/-- `Nano64::new`, from `src/nano64.rs`: wraps any u64 with no validation. -/
def Nano64.new (value : Nat) : Nano64 := ⟨value⟩

/-- `impl From<[u8; 8]> for Nano64`, from `src/nano64.rs`:
`u64::from_be_bytes(bytes)`. -/
def Nano64.ofBeBytes (bytes : List Nat) : Nano64 := ⟨u64FromBeBytes bytes⟩

/-- `Nano64::get_timestamp`, from `src/nano64.rs`:
`(value >> TIMESTAMP_SHIFT) & TIMESTAMP_MASK`. -/
def Nano64.get_timestamp (n : Nano64) : Nat :=
  (n.value >>> TIMESTAMP_SHIFT) &&& TIMESTAMP_MASK

/-- `Nano64::get_random`, from `src/nano64.rs`: `value & RANDOM_MASK`. -/
def Nano64.get_random (n : Nano64) : Nat :=
  n.value &&& RANDOM_MASK

/-- `Nano64::to_bytes`, from `src/nano64.rs`: `value.to_be_bytes()`. -/
def Nano64.to_bytes (n : Nano64) : List Nat :=
  u64ToBeBytes n.value

/-- `Nano64::generate`, from `src/nano64.rs`.  The `Option<rng>`-with-default
plumbing is resolved by the caller here: the default OS rng is not modelled,
the claims quantify over the injected rng. -/
def Nano64.generate (timestamp : Nat) (rng : RandomNumberGeneratorImpl) :
    Except Nano64Error Nano64 :=
  if timestamp > MAX_TIMESTAMP then
    .error (.TimeStampExceedsBitRange timestamp)
  else
    match rng RANDOM_BITS with
    | .error e => .error e
    | .ok random_value =>
      .ok ⟨((timestamp &&& TIMESTAMP_MASK) <<< TIMESTAMP_SHIFT) |||
           (random_value &&& RANDOM_MASK)⟩

/-- `MonotonicRefs`, from `src/monotonic_refs.rs`: the process-wide state
protected by the mutex.  The sequencer runs atomically under the lock, so it
is modelled as explicit state passing. -/
structure MonotonicRefs where
  last_timestamp : Nat
  last_random : Nat
deriving DecidableEq

/-- `Nano64::generate_monotonic`, from `src/nano64.rs`, with the locked state
passed explicitly: the pair holds the call's result and the state after the
call (equal to the input state on every error path of the source).  Mutex
poisoning is the one unmodelled failure (it cannot occur in this panic-free
critical section). -/
def Nano64.generate_monotonic (timestamp : Nat) (rng : RandomNumberGeneratorImpl)
    (refs : MonotonicRefs) : Except Nano64Error Nano64 × MonotonicRefs :=
  if timestamp > MAX_TIMESTAMP then
    (.error (.TimeStampExceedsBitRange timestamp), refs)
  else
    let ts0 := if timestamp < refs.last_timestamp then refs.last_timestamp else timestamp
    if ts0 = refs.last_timestamp then
      let random := (refs.last_random + 1) &&& RANDOM_MASK
      if random = 0 then
        let ts1 := ts0 + 1
        if ts1 > MAX_TIMESTAMP then
          (.error (.Error "timestamp overflow after incrementing for monotonic generation"), refs)
        else
          (.ok ⟨(ts1 &&& TIMESTAMP_MASK) <<< TIMESTAMP_SHIFT⟩, ⟨ts1, 0⟩)
      else
        (.ok ⟨((ts0 &&& TIMESTAMP_MASK) <<< TIMESTAMP_SHIFT) ||| random⟩, ⟨ts0, random⟩)
    else
      match rng RANDOM_BITS with
      | .error e => (.error e, refs)
      | .ok random_value =>
        let random := random_value &&& RANDOM_MASK
        (.ok ⟨((ts0 &&& TIMESTAMP_MASK) <<< TIMESTAMP_SHIFT) ||| random⟩, ⟨ts0, random⟩)

/-! ### Codec: hex encoding and decoding -/

/-- One hex digit as an uppercase character, as Rust's `{:02X}` and `{:016X}`
format specifications render digits 0–15. -/
def hexDigitChar16 (d : Nat) : Char :=
  if d < 10 then Char.ofNat (48 + d) else Char.ofNat (55 + d)

/-- `char::to_digit(16)` as used by `u8::from_str_radix(_, 16)`: the value of
one hex digit character, either case accepted. -/
def hexDigitVal (c : Char) : Option Nat :=
  if '0' ≤ c ∧ c ≤ '9' then some (c.toNat - 48)
  else if 'a' ≤ c ∧ c ≤ 'f' then some (c.toNat - 97 + 10)
  else if 'A' ≤ c ∧ c ≤ 'F' then some (c.toNat - 65 + 10)
  else none

/-- Digit loop of `u8::from_str_radix(_, 16)`: accumulate hex digits, failing
on a non-digit or on overflow past `u8::MAX` (unreachable for the 2-character
chunks `Hex::to_bytes` feeds it). -/
def radix16DigitsLoop : List Char → Nat → Option Nat
  | [], acc => some acc
  | c :: rest, acc =>
    match hexDigitVal c with
    | none => none
    | some d => if acc * 16 + d ≤ 255 then radix16DigitsLoop rest (acc * 16 + d) else none

/-- `u8::from_str_radix(s, 16)` from the Rust standard library as called in
`src/hex.rs`: an optional leading `+` sign followed by at least one digit (a
`-` is not accepted for an unsigned target and fails as an invalid digit,
which the default branch reproduces since `-` is not a hex digit). -/
def u8FromStrRadix16 (s : List Char) : Option Nat :=
  match s with
  | [] => none
  | '+' :: rest => if rest = [] then none else radix16DigitsLoop rest 0
  | _ => radix16DigitsLoop s 0

/-- `str::strip_prefix("0x")` as `Hex::to_bytes` (`src/hex.rs`) applies it:
only the lowercase form is stripped there. -/
def drop0xLower (s : List Char) : List Char :=
  match s with
  | c1 :: c2 :: rest => if c1 = '0' ∧ c2 = 'x' then rest else c1 :: c2 :: rest
  | _ => s

/-- `as_bytes().chunks(2)` over the characters of the (ASCII) hex string. -/
def chunk2 : List Char → List (List Char)
  | [] => []
  | [c] => [[c]]
  | c1 :: c2 :: rest => [c1, c2] :: chunk2 rest

/-- Result of `Hex::to_bytes`: success, error, or the out-of-bounds panic the
source hits when the write index runs past the fixed 8-byte buffer. -/
inductive HexRes where
| ok (bytes : List Nat)
| err (e : Nano64Error)
| panicked
deriving DecidableEq

/-- The loop of `Hex::to_bytes` (`src/hex.rs`): each 2-character chunk is
parsed with `u8::from_str_radix(_, 16)` (a chunk that is not valid UTF-8 or
not hex yields `HexStringContainsNonHexChars`; a non-ASCII character both
breaks the UTF-8 chunking and fails the digit parse, so the merged error is
faithful), then `bytes[i] = …` stores it — which panics when `i` reaches 8,
exactly as indexing a `[u8; 8]` out of bounds panics in Rust. -/
def hexToBytesLoop : List (List Char) → Nat → List Nat → HexRes
  | [], _, bytes => .ok bytes
  | chunk :: rest, i, bytes =>
    match u8FromStrRadix16 chunk with
    | none => .err .HexStringContainsNonHexChars
    | some b => if i < 8 then hexToBytesLoop rest (i + 1) (bytes.set i b) else .panicked

/-- `Hex::to_bytes`, from `src/hex.rs`: strip an optional lowercase `0x`,
reject odd length, then fill the fixed `[u8; 8]` buffer chunk by chunk. -/
def Hex.to_bytes (hex : List Char) : HexRes :=
  let h := drop0xLower hex
  if h.length % 2 ≠ 0 then .err .HexStringNotEvenCharacters
  else hexToBytesLoop (chunk2 h) 0 (List.replicate 8 0)

/-- `format!("\x7bb:02X\x7d")` for one byte. -/
def byteToHexPair (b : Nat) : List Char :=
  [hexDigitChar16 (b / 16), hexDigitChar16 (b % 16)]

/-- `Hex::from_bytes`, from `src/hex.rs`: each byte rendered as two uppercase
hex characters and concatenated.  The iterator body is length-generic; the
Rust signature pins the argument to `&[u8; 8]` even though
`Nano64Encrypted::to_encrypted_hex` passes it the 36-byte payload. -/
def Hex.from_bytes : List Nat → List Char
  | [] => []
  | b :: rest => byteToHexPair b ++ Hex.from_bytes rest

/-- `clean.strip_prefix("0x").or_else(strip_prefix("0X"))` as applied by
`Nano64::from_str` (`src/nano64.rs`): one prefix of either case is removed. -/
def drop0xEitherCase (s : List Char) : List Char :=
  match s with
  | c1 :: c2 :: rest => if c1 = '0' ∧ (c2 = 'x' ∨ c2 = 'X') then rest else c1 :: c2 :: rest
  | _ => s

/-- Result of parsing an identifier from a string; `panicked` records a panic
escaping from `Hex::to_bytes` (unreachable for inputs passing the 16-character
length check, but part of the faithful model). -/
inductive StrRes where
| ok (n : Nano64)
| err (e : Nano64Error)
| panicked
deriving DecidableEq

/-- `impl FromStr for Nano64`, from `src/nano64.rs`: `value.replace("-", "")`
removes every dash, one optional `0x`/`0X` is stripped, exactly 16 characters
are required, `Hex::to_bytes` decodes them and the value is rebuilt
big-endian (the 8-byte check can never fail since the buffer is fixed). -/
def Nano64.from_str (value : List Char) : StrRes :=
  let clean := drop0xEitherCase (value.filter (fun c => c ≠ '-'))
  if clean.length ≠ 16 then
    .err (.Error ("hex must be 16 chars after removing dash, got " ++ toString clean.length))
  else
    match Hex.to_bytes clean with
    | .panicked => .panicked
    | .err e => .err e
    | .ok bytes_vec =>
      if bytes_vec.length ≠ 8 then
        .err (.Error ("hex must decode to 8 bytes, got " ++ toString bytes_vec.length))
      else .ok ⟨u64FromBeBytes bytes_vec⟩

/-- The 16 hex digits of `format!("\x7b:016X\x7d", value)` for a u64: nibble
`i` of the value (nibble 0 the most significant), rendered uppercase. -/
def u64HexDigits16 (v : Nat) : List Char :=
  (List.range 16).map (fun i => hexDigitChar16 ((v >>> (4 * (15 - i))) &&& 15))

/-- `Nano64::to_hex`, from `src/nano64.rs`: the 16-digit uppercase rendering
with one `-` inserted after character `SPLIT = 11`. -/
def Nano64.to_hex (n : Nano64) : List Char :=
  let full := u64HexDigits16 n.value
  full.take 11 ++ '-' :: full.drop 11

/-- `Nano64Encrypted::to_encrypted_hex`, from `src/nano64_encrypted.rs`:
hex-encode the 36-byte payload with `Hex::from_bytes`. -/
def to_encrypted_hex (payload : List Nat) : List Char :=
  Hex.from_bytes payload

/-- Outcome of the decode stage of
`Nano64EncryptionFactory::from_encrypted_hex` (`src/nano64_encrypted.rs`)
before any decryption is attempted: the payload bytes handed on to
`from_encrypted_bytes`, an error, or a panic escaping `Hex::to_bytes`. -/
inductive PayloadDecode where
| toDecrypt (bytes : List Nat)
| err (e : Nano64Error)
| panicked
deriving DecidableEq

/-- The decode stage of `from_encrypted_hex`: run `Hex::to_bytes` on the hex
string, then compare the byte count against `PAYLOAD_LENGTH` (the AES-GCM
decryption that follows on success is outside this model). -/
def from_encrypted_hex_decode (hex : List Char) : PayloadDecode :=
  match Hex.to_bytes hex with
  | .panicked => .panicked
  | .err e => .err e
  | .ok bytes =>
    if bytes.length ≠ PAYLOAD_LENGTH then
      .err (.Error ("Encrypted payload must be " ++ toString PAYLOAD_LENGTH ++ " len, got " ++
        toString bytes.length))
    else .toDecrypt bytes

/-! ### Arithmetic helper lemmas -/

theorem TIMESTAMP_MASK_eq : TIMESTAMP_MASK = 2 ^ 44 - 1 := by decide

theorem RANDOM_MASK_eq : RANDOM_MASK = 2 ^ 20 - 1 := by decide

theorem MAX_TIMESTAMP_eq : MAX_TIMESTAMP = 2 ^ 44 - 1 := by decide

/-- Bitwise or of a shifted value with a small value is addition. -/
theorem shiftLeft_or_eq_of_lt (a b k : Nat) (hb : b < 2 ^ k) :
    (a <<< k) ||| b = a * 2 ^ k + b := by
  rw [Nat.shiftLeft_eq, Nat.mul_comm, ← Nat.mul_add_lt_is_or hb]

/-- The big-endian byte round trip, shared by the C3 and C9 proofs. -/
theorem u64_beBytes_roundtrip (v : Nat) (hv : v < 2 ^ 64) :
    u64FromBeBytes (u64ToBeBytes v) = v := by
  have h8 : List.range 8 = [0, 1, 2, 3, 4, 5, 6, 7] := by decide
  simp only [u64ToBeBytes, u64FromBeBytes, h8, List.map_cons, List.map_nil,
    List.foldl_cons, List.foldl_nil, Nat.shiftRight_eq_div_pow]
  have h255 : (255 : Nat) = 2 ^ 8 - 1 := by decide
  simp only [h255, Nat.and_pow_two_sub_one_eq_mod]
  norm_num
  omega

/-! ### C3 -/

/-- C3: bit-layout and byte round trips are lossless over the full u64
domain: for every `v < 2 ^ 64`, recomposing `get_timestamp` and `get_random`
by `(ts << 20) | random` gives back `v`, and the big-endian byte conversion
composed with the byte constructor is the identity. -/
theorem c3_layout_and_bytes_roundtrip (v : Nat) (hv : v < 2 ^ 64) :
    ((Nano64.new v).get_timestamp <<< 20) ||| (Nano64.new v).get_random = v ∧
    Nano64.ofBeBytes (Nano64.to_bytes (Nano64.new v)) = Nano64.new v := by
  constructor
  · simp only [Nano64.new, Nano64.get_timestamp, Nano64.get_random,
      TIMESTAMP_MASK_eq, RANDOM_MASK_eq, TIMESTAMP_SHIFT, RANDOM_BITS,
      Nat.and_pow_two_sub_one_eq_mod, Nat.shiftRight_eq_div_pow]
    rw [shiftLeft_or_eq_of_lt _ _ _ (Nat.mod_lt _ (by norm_num))]
    omega
  · simp only [Nano64.new, Nano64.ofBeBytes, Nano64.to_bytes]
    rw [u64_beBytes_roundtrip v hv]

/-- C3 witness: the round trips at the concrete value `0x123456789ABCDEF0`. -/
theorem c3_layout_and_bytes_roundtrip_witness :
    0x123456789ABCDEF0 < 2 ^ 64 ∧
    (((Nano64.new 0x123456789ABCDEF0).get_timestamp <<< 20) |||
        (Nano64.new 0x123456789ABCDEF0).get_random = 0x123456789ABCDEF0 ∧
      Nano64.ofBeBytes (Nano64.to_bytes (Nano64.new 0x123456789ABCDEF0)) =
        Nano64.new 0x123456789ABCDEF0) :=
  ⟨by norm_num, c3_layout_and_bytes_roundtrip 0x123456789ABCDEF0 (by norm_num)⟩

/-! ### C10 -/

/-- C10: a `Nano64` wraps any u64 with no validation, yet the accessors are
total and always in range — `get_timestamp ≤ 2^44 - 1`, `get_random ≤
2^20 - 1` — and recomposition reproduces the value, for every `v < 2 ^ 64`. -/
theorem c10_accessors_total_in_range (v : Nat) (hv : v < 2 ^ 64) :
    (Nano64.new v).get_timestamp ≤ 2 ^ 44 - 1 ∧
    (Nano64.new v).get_random ≤ 2 ^ 20 - 1 ∧
    ((Nano64.new v).get_timestamp <<< 20) ||| (Nano64.new v).get_random = v := by
  refine ⟨?_, ?_, ?_⟩
  · simp only [Nano64.new, Nano64.get_timestamp, TIMESTAMP_MASK_eq,
      Nat.and_pow_two_sub_one_eq_mod]
    have := Nat.mod_lt (v >>> TIMESTAMP_SHIFT) (show 0 < 2 ^ 44 by norm_num)
    omega
  · simp only [Nano64.new, Nano64.get_random, RANDOM_MASK_eq,
      Nat.and_pow_two_sub_one_eq_mod]
    have := Nat.mod_lt v (show 0 < 2 ^ 20 by norm_num)
    omega
  · simp only [Nano64.new, Nano64.get_timestamp, Nano64.get_random,
      TIMESTAMP_MASK_eq, RANDOM_MASK_eq, TIMESTAMP_SHIFT, RANDOM_BITS,
      Nat.and_pow_two_sub_one_eq_mod, Nat.shiftRight_eq_div_pow]
    rw [shiftLeft_or_eq_of_lt _ _ _ (Nat.mod_lt _ (by norm_num))]
    omega

/-- C10 witness: the accessor bounds and recomposition at `u64::MAX`. -/
theorem c10_accessors_total_in_range_witness :
    2 ^ 64 - 1 < 2 ^ 64 ∧
    ((Nano64.new (2 ^ 64 - 1)).get_timestamp ≤ 2 ^ 44 - 1 ∧
      (Nano64.new (2 ^ 64 - 1)).get_random ≤ 2 ^ 20 - 1 ∧
      ((Nano64.new (2 ^ 64 - 1)).get_timestamp <<< 20) |||
          (Nano64.new (2 ^ 64 - 1)).get_random = 2 ^ 64 - 1) :=
  ⟨by norm_num, c10_accessors_total_in_range (2 ^ 64 - 1) (by norm_num)⟩

/-- Field extraction from a packed value, shared by the generator proofs. -/
theorem pack_fields (t rv : Nat) (ht : t ≤ 2 ^ 44 - 1) :
    (Nano64.mk (((t &&& TIMESTAMP_MASK) <<< TIMESTAMP_SHIFT) |||
        (rv &&& RANDOM_MASK))).get_timestamp = t ∧
    (Nano64.mk (((t &&& TIMESTAMP_MASK) <<< TIMESTAMP_SHIFT) |||
        (rv &&& RANDOM_MASK))).get_random = rv % 2 ^ 20 := by
  simp only [Nano64.get_timestamp, Nano64.get_random, TIMESTAMP_MASK_eq, RANDOM_MASK_eq,
    TIMESTAMP_SHIFT, RANDOM_BITS, Nat.and_pow_two_sub_one_eq_mod]
  rw [shiftLeft_or_eq_of_lt _ _ 20 (Nat.mod_lt _ (by norm_num)),
    Nat.shiftRight_eq_div_pow]
  constructor
  · omega
  · omega

/-- Bitwise or of a multiple of `2 ^ k` with a value below `2 ^ k` is
addition; stated with the hypothesis last so `rw` leaves it as a side goal. -/
theorem mul_pow_or_eq_add (a b k : Nat) (hb : b < 2 ^ k) :
    (a * 2 ^ k) ||| b = a * 2 ^ k + b := by
  rw [Nat.mul_comm, ← Nat.mul_add_lt_is_or hb]

/-! ### C4 -/

/-- C4: the stateless `generate` matches its reference definition.  A
timestamp above `2^44 - 1` fails with `TimestampOutOfRange` (the source's
`TimeStampExceedsBitRange`); otherwise the rng is asked for `RANDOM_BITS = 20`
bits and any rng failure is propagated unchanged with no identifier; on
success the identifier's timestamp field is the requested timestamp and its
random field is the drawn value reduced mod `2 ^ 20`. -/
theorem c4_generate_reference (t : Nat) (rng : RandomNumberGeneratorImpl) :
    (t > 2 ^ 44 - 1 → Nano64.generate t rng = .error (.TimeStampExceedsBitRange t)) ∧
    (t ≤ 2 ^ 44 - 1 →
      (∀ e, rng 20 = .error e → Nano64.generate t rng = .error e) ∧
      (∀ rv, rng 20 = .ok rv →
        ∃ id, Nano64.generate t rng = .ok id ∧
          id.get_timestamp = t ∧ id.get_random = rv % 2 ^ 20)) := by
  have hbits : RANDOM_BITS = 20 := rfl
  constructor
  · intro h
    unfold Nano64.generate
    rw [MAX_TIMESTAMP_eq, if_pos h]
  · intro h
    constructor
    · intro e he
      unfold Nano64.generate
      rw [MAX_TIMESTAMP_eq, if_neg (by omega), hbits, he]
    · intro rv hrv
      refine ⟨_, ?_, pack_fields t rv h⟩
      unfold Nano64.generate
      rw [MAX_TIMESTAMP_eq, if_neg (by omega), hbits, hrv]

/-- C4 witness: `generate` applied at timestamp 1000 with an rng that returns
`2 ^ 20 + 7`, whose 20-bit reduction is 7. -/
theorem c4_generate_reference_witness :
    (1000 : Nat) ≤ 2 ^ 44 - 1 ∧
    (∃ id, Nano64.generate 1000 (fun _ => .ok (2 ^ 20 + 7)) = .ok id ∧
      id.get_timestamp = 1000 ∧ id.get_random = (2 ^ 20 + 7) % 2 ^ 20) :=
  ⟨by norm_num,
    ((c4_generate_reference 1000 (fun _ => .ok (2 ^ 20 + 7))).2 (by norm_num)).2
      (2 ^ 20 + 7) rfl⟩

/-! ### C8 -/

/-- C8: failure atomicity of the sequencer — whenever `generate_monotonic`
fails (timestamp validation, rng failure in the clock-advanced branch, or
sequence exhaustion on the wrap path) the shared state is returned exactly as
it was and no identifier is produced. -/
theorem c8_failure_leaves_state_unchanged (t : Nat) (rng : RandomNumberGeneratorImpl)
    (refs : MonotonicRefs) (e : Nano64Error) (refs2 : MonotonicRefs)
    (h : Nano64.generate_monotonic t rng refs = (.error e, refs2)) :
    refs2 = refs := by
  unfold Nano64.generate_monotonic at h
  dsimp only at h
  repeat' split at h
  all_goals simp only [Prod.mk.injEq, reduceCtorEq, false_and] at h
  all_goals exact h.2.symm

/-- C8 witness: a concrete failing call — requested timestamp `2 ^ 44` is out
of range — returns the state `{last_timestamp := 5, last_random := 6}`
unchanged. -/
theorem c8_failure_leaves_state_unchanged_witness :
    Nano64.generate_monotonic (2 ^ 44) (fun _ => .ok 0) ⟨5, 6⟩ =
      (.error (.TimeStampExceedsBitRange (2 ^ 44)), ⟨5, 6⟩) ∧
    (⟨5, 6⟩ : MonotonicRefs) = ⟨5, 6⟩ := by
  constructor
  · decide
  · exact c8_failure_leaves_state_unchanged (2 ^ 44) (fun _ => .ok 0) ⟨5, 6⟩
      (.TimeStampExceedsBitRange (2 ^ 44)) ⟨5, 6⟩ (by decide)

/-! ### C1 -/

/-- C1: strict monotonicity of the sequencer.  For a state within the field
bounds and a requested timestamp within range, every successful call returns
an identifier whose raw value is exactly the packing of the new state and is
strictly greater than the packing of the old state; the new state satisfies
the same bounds again, so along any sequence of successful calls the returned
raw values are strictly increasing and pairwise distinct. -/
theorem c1_monotonic_strict_increase (t : Nat) (rng : RandomNumberGeneratorImpl)
    (refs : MonotonicRefs) (hlt : refs.last_timestamp ≤ 2 ^ 44 - 1)
    (hlr : refs.last_random ≤ 2 ^ 20 - 1) (ht : t ≤ 2 ^ 44 - 1)
    (id : Nano64) (refs2 : MonotonicRefs)
    (h : Nano64.generate_monotonic t rng refs = (.ok id, refs2)) :
    id.value = (refs2.last_timestamp <<< 20) ||| refs2.last_random ∧
    ((refs.last_timestamp <<< 20) ||| refs.last_random) < id.value ∧
    refs2.last_timestamp ≤ 2 ^ 44 - 1 ∧ refs2.last_random ≤ 2 ^ 20 - 1 := by
  unfold Nano64.generate_monotonic at h
  dsimp only at h
  repeat' split at h
  all_goals simp only [Prod.mk.injEq, Except.ok.injEq, reduceCtorEq, false_and] at h
  all_goals obtain ⟨rfl, rfl⟩ := h
  all_goals simp only [TIMESTAMP_MASK_eq, RANDOM_MASK_eq, MAX_TIMESTAMP_eq, TIMESTAMP_SHIFT,
    RANDOM_BITS, Nat.and_pow_two_sub_one_eq_mod, Nat.shiftLeft_eq, Nat.or_zero,
    not_true, eq_self_iff_true] at *
  all_goals repeat rw [mul_pow_or_eq_add]
  all_goals omega

/-- C1 witness: one same-millisecond step from state `{1000, 50}` returns the
packed value of the new state `{1000, 51}` and exceeds the old packing. -/
theorem c1_monotonic_strict_increase_witness :
    (1000 : Nat) ≤ 2 ^ 44 - 1 ∧ (50 : Nat) ≤ 2 ^ 20 - 1 ∧
    ((Nano64.mk ((1000 <<< 20) ||| 51)).value = ((1000 : Nat) <<< 20) ||| 51 ∧
      (((1000 : Nat) <<< 20) ||| 50) < (Nano64.mk ((1000 <<< 20) ||| 51)).value ∧
      (1000 : Nat) ≤ 2 ^ 44 - 1 ∧ (51 : Nat) ≤ 2 ^ 20 - 1) :=
  ⟨by norm_num, by norm_num,
    c1_monotonic_strict_increase 1000 (fun _ => .ok 0) ⟨1000, 50⟩
      (by norm_num) (by norm_num) (by norm_num) ⟨(1000 <<< 20) ||| 51⟩ ⟨1000, 51⟩
      (by decide)⟩

/-! ### C5 -/

/-- C5: random-field wrap carries into the timestamp.  From state
`{last_timestamp = T, last_random = 2^20 - 1}`, a call with any requested
timestamp `t ≤ T` — and any rng, which is never consulted on this path —
returns the identifier with timestamp `T + 1` and random 0 and stores that
state, while if `T` is already the maximal timestamp the call fails with the
sequence-exhaustion error (the source's overflow `Error`) and the state is
unchanged with no identifier issued. -/
theorem c5_wrap_carry (T t : Nat) (rng : RandomNumberGeneratorImpl)
    (hT : T ≤ 2 ^ 44 - 1) (ht : t ≤ T) :
    (T < 2 ^ 44 - 1 →
      Nano64.generate_monotonic t rng ⟨T, 2 ^ 20 - 1⟩ =
        (.ok ⟨(T + 1) <<< 20⟩, ⟨T + 1, 0⟩) ∧
      (Nano64.mk ((T + 1) <<< 20)).get_timestamp = T + 1 ∧
      (Nano64.mk ((T + 1) <<< 20)).get_random = 0) ∧
    (T = 2 ^ 44 - 1 →
      Nano64.generate_monotonic t rng ⟨T, 2 ^ 20 - 1⟩ =
        (.error (.Error "timestamp overflow after incrementing for monotonic generation"),
          ⟨T, 2 ^ 20 - 1⟩)) := by
  unfold Nano64.generate_monotonic
  dsimp only
  rw [MAX_TIMESTAMP_eq, if_neg (show ¬t > 2 ^ 44 - 1 by omega),
    show (if t < T then T else t) = T from by split <;> omega, if_pos rfl,
    show (2 ^ 20 - 1 + 1) &&& RANDOM_MASK = 0 from by decide, if_pos rfl]
  constructor
  · intro hTlt
    rw [if_neg (show ¬T + 1 > 2 ^ 44 - 1 by omega),
      show (T + 1) &&& TIMESTAMP_MASK = T + 1 from by
        rw [TIMESTAMP_MASK_eq, Nat.and_pow_two_sub_one_eq_mod]; omega]
    refine ⟨rfl, ?_, ?_⟩
    · simp only [Nano64.get_timestamp, TIMESTAMP_MASK_eq, TIMESTAMP_SHIFT, RANDOM_BITS,
        Nat.and_pow_two_sub_one_eq_mod, Nat.shiftLeft_eq, Nat.shiftRight_eq_div_pow]
      omega
    · simp only [Nano64.get_random, RANDOM_MASK_eq, Nat.and_pow_two_sub_one_eq_mod,
        Nat.shiftLeft_eq]
      omega
  · intro hTeq
    rw [if_pos (show T + 1 > 2 ^ 44 - 1 by omega)]

/-- C5 witness: the wrap step at `T = 5` and the exhaustion failure at the
maximal timestamp, each from a saturated random field. -/
theorem c5_wrap_carry_witness :
    ((5 : Nat) ≤ 2 ^ 44 - 1 ∧ (3 : Nat) ≤ 5 ∧
      (Nano64.generate_monotonic 3 (fun _ => .ok 0) ⟨5, 2 ^ 20 - 1⟩ =
          (.ok ⟨(5 + 1) <<< 20⟩, ⟨5 + 1, 0⟩) ∧
        (Nano64.mk ((5 + 1) <<< 20)).get_timestamp = 5 + 1 ∧
        (Nano64.mk ((5 + 1) <<< 20)).get_random = 0)) ∧
    Nano64.generate_monotonic (2 ^ 44 - 1) (fun _ => .ok 0) ⟨2 ^ 44 - 1, 2 ^ 20 - 1⟩ =
      (.error (.Error "timestamp overflow after incrementing for monotonic generation"),
        ⟨2 ^ 44 - 1, 2 ^ 20 - 1⟩) :=
  ⟨⟨by norm_num, by norm_num,
      (c5_wrap_carry 5 3 (fun _ => .ok 0) (by norm_num) (by norm_num)).1 (by norm_num)⟩,
    (c5_wrap_carry (2 ^ 44 - 1) (2 ^ 44 - 1) (fun _ => .ok 0) (by norm_num)
      (by norm_num)).2 rfl⟩

/-! ### C6 -/

/-- C6: same-millisecond increment and backward-clock clamp.  From state
`{1000, 50}` a call with timestamp 1000 returns random 51, and a further call
with any requested timestamp `t2 ≤ 1000` still returns timestamp 1000 and
random 52 — in both calls with any rng, so no fresh draw occurs — and in
general a successful call never moves `last_timestamp` below
`max(requested, last)`. -/
theorem c6_same_ms_increment_and_clamp (rng rng2 : RandomNumberGeneratorImpl)
    (t2 : Nat) (ht2 : t2 ≤ 1000) :
    Nano64.generate_monotonic 1000 rng ⟨1000, 50⟩ =
      (.ok ⟨(1000 <<< 20) ||| 51⟩, ⟨1000, 51⟩) ∧
    Nano64.generate_monotonic t2 rng2 ⟨1000, 51⟩ =
      (.ok ⟨(1000 <<< 20) ||| 52⟩, ⟨1000, 52⟩) ∧
    (Nano64.mk ((1000 <<< 20) ||| 52)).get_timestamp = 1000 ∧
    (Nano64.mk ((1000 <<< 20) ||| 52)).get_random = 52 ∧
    (Nano64.mk ((1000 <<< 20) ||| 51)).get_random = 51 ∧
    (∀ t3 rng3 refs id refs2, Nano64.generate_monotonic t3 rng3 refs = (.ok id, refs2) →
      max t3 refs.last_timestamp ≤ refs2.last_timestamp) := by
  refine ⟨by rfl, ?_, by decide, by decide, by decide, ?_⟩
  · unfold Nano64.generate_monotonic
    dsimp only
    rw [MAX_TIMESTAMP_eq, if_neg (show ¬t2 > 2 ^ 44 - 1 by omega),
      show (if t2 < 1000 then 1000 else t2) = 1000 from by split <;> omega, if_pos rfl,
      show (51 + 1) &&& RANDOM_MASK = 52 from by decide]
    rw [if_neg (show ¬(52 : Nat) = 0 by omega)]
    rfl
  · intro t3 rng3 refs id refs2 h
    unfold Nano64.generate_monotonic at h
    dsimp only at h
    repeat' split at h
    all_goals simp only [Prod.mk.injEq, Except.ok.injEq, reduceCtorEq, false_and] at h
    all_goals obtain ⟨rfl, rfl⟩ := h
    all_goals simp only [MAX_TIMESTAMP_eq, not_true, eq_self_iff_true] at *
    all_goals omega

/-- C6 witness: the two concrete calls with the second requested timestamp
999, and the clamp conjunct applied to the first call. -/
theorem c6_same_ms_increment_and_clamp_witness :
    (999 : Nat) ≤ 1000 ∧
    (Nano64.generate_monotonic 1000 (fun _ => .ok 0) ⟨1000, 50⟩ =
        (.ok ⟨(1000 <<< 20) ||| 51⟩, ⟨1000, 51⟩) ∧
      Nano64.generate_monotonic 999 (fun _ => .ok 0) ⟨1000, 51⟩ =
        (.ok ⟨(1000 <<< 20) ||| 52⟩, ⟨1000, 52⟩)) ∧
    max 1000 1000 ≤ 1000 :=
  ⟨by norm_num,
    ⟨(c6_same_ms_increment_and_clamp (fun _ => .ok 0) (fun _ => .ok 0) 999 (by norm_num)).1,
      (c6_same_ms_increment_and_clamp (fun _ => .ok 0) (fun _ => .ok 0) 999 (by norm_num)).2.1⟩,
    (c6_same_ms_increment_and_clamp (fun _ => .ok 0) (fun _ => .ok 0) 999
      (by norm_num)).2.2.2.2.2 1000 (fun _ => .ok 0) ⟨1000, 50⟩ ⟨(1000 <<< 20) ||| 51⟩
      ⟨1000, 51⟩ (by decide)⟩

/-! ### Codec helper lemmas -/

theorem from_bytes_length (bytes : List Nat) :
    (Hex.from_bytes bytes).length = 2 * bytes.length := by
  induction bytes with
  | nil => rfl
  | cons b rest ih =>
    simp only [Hex.from_bytes, byteToHexPair, List.length_append, List.length_cons, ih]
    simp only [List.length_nil, List.length_cons]
    omega

theorem chunk2_from_bytes (bytes : List Nat) :
    chunk2 (Hex.from_bytes bytes) = bytes.map byteToHexPair := by
  induction bytes with
  | nil => rfl
  | cons b rest ih =>
    show chunk2 (byteToHexPair b ++ Hex.from_bytes rest) = byteToHexPair b :: _
    show [hexDigitChar16 (b / 16), hexDigitChar16 (b % 16)] :: chunk2 (Hex.from_bytes rest) = _
    rw [ih]
    rfl

set_option maxRecDepth 4000 in
theorem byteToHexPair_parses :
    ∀ b, b < 256 → u8FromStrRadix16 (byteToHexPair b) = some b := by decide

/-- Every byte-pair character is a digit or an uppercase hex letter, hence
none of the special characters the parsers look for. -/
theorem hexDigitChar16_props :
    ∀ d, d < 16 → hexDigitChar16 d ∈ "0123456789ABCDEF".toList ∧
      hexDigitChar16 d ≠ '-' ∧ hexDigitChar16 d ≠ 'x' ∧ hexDigitChar16 d ≠ 'X' := by
  decide

/-- A fully parseable chunk list longer than the remaining buffer space makes
the `Hex::to_bytes` loop panic. -/
theorem hexToBytesLoop_panics (chunks : List (List Char)) :
    ∀ i bytes, i ≤ 8 → 8 < i + chunks.length →
      (∀ c ∈ chunks, (u8FromStrRadix16 c).isSome) →
      hexToBytesLoop chunks i bytes = .panicked := by
  induction chunks with
  | nil =>
    intro i bytes h1 h2 _
    simp only [List.length_nil] at h2
    omega
  | cons c rest ih =>
    intro i bytes h1 h2 h3
    obtain ⟨b, hb⟩ := Option.isSome_iff_exists.mp (h3 c (List.mem_cons_self c rest))
    simp only [hexToBytesLoop, hb]
    by_cases hi : i < 8
    · rw [if_pos hi]
      refine ih (i + 1) _ (by omega) ?_ (fun c2 hc2 => h3 c2 (List.mem_cons_of_mem _ hc2))
      simp only [List.length_cons] at h2
      omega
    · rw [if_neg hi]

/-- A chunk list fitting the buffer with some unparseable chunk makes the
`Hex::to_bytes` loop report `HexStringContainsNonHexChars`. -/
theorem hexToBytesLoop_char_err (chunks : List (List Char)) :
    ∀ i bytes, i + chunks.length ≤ 8 →
      (∃ c ∈ chunks, u8FromStrRadix16 c = none) →
      hexToBytesLoop chunks i bytes = .err .HexStringContainsNonHexChars := by
  induction chunks with
  | nil =>
    intro i bytes _ h2
    simp only [List.not_mem_nil, false_and, exists_false] at h2
  | cons c rest ih =>
    intro i bytes h1 h2
    simp only [List.length_cons] at h1
    match hc : u8FromStrRadix16 c with
    | none => simp only [hexToBytesLoop, hc]
    | some b =>
      simp only [hexToBytesLoop, hc, if_pos (show i < 8 by omega)]
      refine ih (i + 1) _ (by omega) ?_
      obtain ⟨c2, hc2, hnone⟩ := h2
      rcases List.mem_cons.mp hc2 with rfl | hmem
      · rw [hc] at hnone
        exact absurd hnone (by simp)
      · exact ⟨c2, hmem, hnone⟩

/-! ### C2 -/

/-- C2: the claim describes the documented wire form, but the code cannot
decode it — `Hex::to_bytes` writes every chunk into a fixed `[u8; 8]`, so
decoding the 72-character hex encoding of any 36-byte payload panics with an
out-of-bounds index as soon as the ninth chunk is stored, before the
`PAYLOAD_LENGTH` comparison or any decryption is reached.  This theorem
evaluates the model at the failing inputs: the encoding has the documented 72
characters, yet the decode stage panics. -/
theorem c2_from_encrypted_hex_panics (payload : List Nat)
    (hlen : payload.length = PAYLOAD_LENGTH) (hbytes : ∀ b ∈ payload, b < 256) :
    (to_encrypted_hex payload).length = 72 ∧
    from_encrypted_hex_decode (to_encrypted_hex payload) = .panicked := by
  have hlen36 : payload.length = 36 := hlen
  have hflen : (Hex.from_bytes payload).length = 72 := by
    rw [from_bytes_length, hlen36]
  refine ⟨hflen, ?_⟩
  obtain ⟨b0, rest, rfl⟩ : ∃ b0 rest, payload = b0 :: rest := by
    cases payload with
    | nil => simp at hlen36
    | cons b0 rest => exact ⟨b0, rest, rfl⟩
  have hsecond : hexDigitChar16 (b0 % 16) ≠ 'x' :=
    (hexDigitChar16_props (b0 % 16) (Nat.mod_lt _ (by norm_num))).2.2.1
  have hdrop : drop0xLower (Hex.from_bytes (b0 :: rest)) = Hex.from_bytes (b0 :: rest) := by
    show drop0xLower (byteToHexPair b0 ++ Hex.from_bytes rest) = _
    simp only [byteToHexPair, List.cons_append, List.nil_append, drop0xLower]
    rw [if_neg (fun hand => hsecond hand.2)]
    rfl
  have htb : Hex.to_bytes (Hex.from_bytes (b0 :: rest)) = .panicked := by
    simp only [Hex.to_bytes]
    rw [hdrop, hflen, if_neg (by norm_num), chunk2_from_bytes]
    refine hexToBytesLoop_panics _ 0 _ (by norm_num) ?_ ?_
    · rw [List.length_map, hlen36]
      norm_num
    · intro c hc
      obtain ⟨b, hbmem, rfl⟩ := List.mem_map.mp hc
      rw [byteToHexPair_parses b (hbytes b hbmem)]
      rfl
  unfold to_encrypted_hex from_encrypted_hex_decode
  rw [htb]

/-- C2 witness: the all-zero 36-byte payload — its hex form has 72 characters
and its decode stage panics. -/
theorem c2_from_encrypted_hex_panics_witness :
    (List.replicate 36 (0 : Nat)).length = PAYLOAD_LENGTH ∧
    (∀ b ∈ List.replicate 36 (0 : Nat), b < 256) ∧
    ((to_encrypted_hex (List.replicate 36 (0 : Nat))).length = 72 ∧
      from_encrypted_hex_decode (to_encrypted_hex (List.replicate 36 (0 : Nat))) =
        .panicked) :=
  ⟨by decide, by decide,
    c2_from_encrypted_hex_panics (List.replicate 36 0) (by decide) (by decide)⟩

/-! ### C7 -/

/-- C7 counterexample: the claim requires rejecting every deviation beyond one
optional prefix and a single separator, but `value.replace("-", "")` removes
every dash, so a string with three separators is accepted and decodes
successfully. -/
theorem c7_counterexample_multiple_separators :
    Nano64.from_str ("1-2-3-456789ABCDEF0".toList) = .ok ⟨0x123456789ABCDEF0⟩ := by
  decide

/-- C7 amended: decoding accepts an optional `0x`/`0X` prefix and any number
of `-` separators anywhere (not only a single one).  It fails with the
16-character length error whenever the cleaned hex is not exactly 16
characters; when the cleaned hex has 16 characters and does not itself begin
with `0x` (which `Hex::to_bytes` would strip again), an unparseable byte pair
yields `HexStringContainsNonHexChars`.  The claim's concrete examples all
behave as stated. -/
theorem c7_hex_decoding_amended :
    (∀ s, (drop0xEitherCase (s.filter (fun c => c ≠ '-'))).length ≠ 16 →
      Nano64.from_str s =
        .err (.Error ("hex must be 16 chars after removing dash, got " ++
          toString (drop0xEitherCase (s.filter (fun c => c ≠ '-'))).length))) ∧
    (∀ s, (drop0xEitherCase (s.filter (fun c => c ≠ '-'))).length = 16 →
      drop0xLower (drop0xEitherCase (s.filter (fun c => c ≠ '-'))) =
        drop0xEitherCase (s.filter (fun c => c ≠ '-')) →
      (∃ ch ∈ chunk2 (drop0xEitherCase (s.filter (fun c => c ≠ '-'))),
        u8FromStrRadix16 ch = none) →
      Nano64.from_str s = .err .HexStringContainsNonHexChars) ∧
    Nano64.from_str ("0x123456789ABCDEF0".toList) = .ok ⟨0x123456789ABCDEF0⟩ ∧
    Nano64.from_str ("123456789AB-CDEF0".toList) = .ok ⟨0x123456789ABCDEF0⟩ ∧
    Nano64.from_str ("12-34-56789ABCDEF0".toList) = .ok ⟨0x123456789ABCDEF0⟩ ∧
    Nano64.from_str ("123".toList) =
      .err (.Error "hex must be 16 chars after removing dash, got 3") ∧
    Nano64.from_str ("123456789ABCDEFG".toList) = .err .HexStringContainsNonHexChars := by
  refine ⟨?_, ?_, by decide, by decide, by decide, by decide, by decide⟩
  · intro s h
    unfold Nano64.from_str
    rw [if_pos h]
  · intro s hlen hdrop hex
    unfold Nano64.from_str
    rw [if_neg (by omega)]
    have htb : Hex.to_bytes (drop0xEitherCase (s.filter (fun c => c ≠ '-'))) =
        .err .HexStringContainsNonHexChars := by
      simp only [Hex.to_bytes]
      rw [hdrop, hlen, if_neg (by norm_num)]
      refine hexToBytesLoop_char_err _ 0 _ ?_ hex
      have hc2 : ∀ l : List Char, (chunk2 l).length = (l.length + 1) / 2 := by
        intro l
        induction l using chunk2.induct with
        | case1 => rfl
        | case2 c => simp [chunk2]
        | case3 c1 c2 rest ih =>
          simp only [chunk2, List.length_cons, ih]
          omega
      rw [hc2, hlen]
    rw [htb]

/-- C7 witness (for the amended theorem's quantified clauses): the length
clause applied to `"123"` and the character clause applied to
`"123456789ABCDEFG"`. -/
theorem c7_hex_decoding_amended_witness :
    ((drop0xEitherCase (("123".toList).filter (fun c => c ≠ '-'))).length ≠ 16 ∧
      Nano64.from_str ("123".toList) =
        .err (.Error ("hex must be 16 chars after removing dash, got " ++
          toString (drop0xEitherCase (("123".toList).filter (fun c => c ≠ '-'))).length))) ∧
    ((drop0xEitherCase (("123456789ABCDEFG".toList).filter (fun c => c ≠ '-'))).length = 16 ∧
      Nano64.from_str ("123456789ABCDEFG".toList) = .err .HexStringContainsNonHexChars) :=
  ⟨⟨by decide, c7_hex_decoding_amended.1 ("123".toList) (by decide)⟩,
    ⟨by decide, c7_hex_decoding_amended.2.1 ("123456789ABCDEFG".toList) (by decide)
      (by decide) (by decide)⟩⟩

/-! ### C9 helper lemmas -/

theorem take_succ_set (acc : List Nat) :
    ∀ i b, i < acc.length → (acc.set i b).take (i + 1) = acc.take i ++ [b] := by
  induction acc with
  | nil =>
    intro i b h
    simp at h
  | cons a rest ih =>
    intro i b h
    cases i with
    | zero => simp
    | succ n =>
      have hlt : n < rest.length := by simpa using h
      simp only [List.set_cons_succ, List.take_succ_cons, ih n b hlt, List.cons_append]

/-- The `Hex::to_bytes` loop on the rendering of exactly 8 in-range bytes
recovers those bytes. -/
theorem hexToBytesLoop_ok_values (bytesIn : List Nat) :
    ∀ i acc, acc.length = 8 → i + bytesIn.length = 8 → (∀ b ∈ bytesIn, b < 256) →
      hexToBytesLoop (bytesIn.map byteToHexPair) i acc = .ok (acc.take i ++ bytesIn) := by
  induction bytesIn with
  | nil =>
    intro i acc h1 h2 _
    simp only [List.length_nil] at h2
    simp only [List.map_nil, hexToBytesLoop, List.append_nil]
    rw [List.take_of_length_le (by omega)]
  | cons b rest ih =>
    intro i acc h1 h2 h3
    simp only [List.length_cons] at h2
    simp only [List.map_cons, hexToBytesLoop,
      byteToHexPair_parses b (h3 b (List.mem_cons_self b rest))]
    rw [if_pos (show i < 8 by omega)]
    rw [ih (i + 1) (acc.set i b) (by simpa using h1) (by omega)
      (fun x hx => h3 x (List.mem_cons_of_mem _ hx))]
    rw [take_succ_set acc i b (by omega)]
    simp

/-- The 16-nibble rendering of a u64 coincides with the byte-pair rendering
of its big-endian bytes. -/
theorem u64HexDigits16_eq_from_bytes (v : Nat) :
    u64HexDigits16 v = Hex.from_bytes (u64ToBeBytes v) := by
  have h16 : List.range 16 = [0, 1, 2, 3, 4, 5, 6, 7, 8, 9, 10, 11, 12, 13, 14, 15] := by
    decide
  have h8 : List.range 8 = [0, 1, 2, 3, 4, 5, 6, 7] := by decide
  simp only [u64HexDigits16, u64ToBeBytes, h16, h8, List.map_cons, List.map_nil,
    Hex.from_bytes, byteToHexPair, List.cons_append, List.nil_append,
    Nat.shiftRight_eq_div_pow, show (15 : Nat) = 2 ^ 4 - 1 from rfl,
    show (255 : Nat) = 2 ^ 8 - 1 from rfl, Nat.and_pow_two_sub_one_eq_mod,
    List.cons.injEq, and_true]
  norm_num
  repeat' apply And.intro
  all_goals exact congrArg hexDigitChar16 (by omega)

theorem u64HexDigits16_length (v : Nat) : (u64HexDigits16 v).length = 16 := by
  simp [u64HexDigits16]

theorem u64HexDigits16_chars (v : Nat) :
    ∀ c ∈ u64HexDigits16 v, c ∈ "0123456789ABCDEF".toList ∧
      c ≠ '-' ∧ c ≠ 'x' ∧ c ≠ 'X' := by
  intro c hc
  obtain ⟨i, _, rfl⟩ := List.mem_map.mp hc
  exact hexDigitChar16_props _ (Nat.lt_succ_of_le Nat.and_le_right)

theorem drop0xEitherCase_eq_self (l : List Char)
    (h : ∀ c ∈ l, c ≠ 'x' ∧ c ≠ 'X') : drop0xEitherCase l = l := by
  match l with
  | [] => rfl
  | [c] => rfl
  | c1 :: c2 :: rest =>
    have h2 := h c2 (by simp)
    simp only [drop0xEitherCase]
    rw [if_neg]
    rintro ⟨_, hx | hX⟩
    exacts [h2.1 hx, h2.2 hX]

theorem drop0xLower_eq_self (l : List Char) (h : ∀ c ∈ l, c ≠ 'x') :
    drop0xLower l = l := by
  match l with
  | [] => rfl
  | [c] => rfl
  | c1 :: c2 :: rest =>
    simp only [drop0xLower]
    rw [if_neg]
    exact fun hand => h c2 (by simp) hand.2

/-- Removing the separator from `to_hex` recovers the 16-digit rendering. -/
theorem to_hex_filter (v : Nat) :
    (Nano64.mk v).to_hex.filter (fun c => c ≠ '-') = u64HexDigits16 v := by
  have hmem : ∀ c ∈ u64HexDigits16 v, c ≠ '-' := fun c hc =>
    (u64HexDigits16_chars v c hc).2.1
  show ((u64HexDigits16 v).take 11 ++ '-' :: (u64HexDigits16 v).drop 11).filter _ = _
  rw [List.filter_append]
  have hminus : (fun c => decide (c ≠ '-')) '-' = false := by decide
  simp only [List.filter_cons, hminus, Bool.false_eq_true, if_false]
  rw [List.filter_eq_self.mpr
      (fun c hc => decide_eq_true (hmem c (List.take_subset 11 _ hc))),
    List.filter_eq_self.mpr
      (fun c hc => decide_eq_true (hmem c (List.drop_subset 11 _ hc))),
    List.take_append_drop]

theorem hex_to_bytes_of_digits (v : Nat) :
    Hex.to_bytes (u64HexDigits16 v) = .ok (u64ToBeBytes v) := by
  have hbytes_len : (u64ToBeBytes v).length = 8 := by simp [u64ToBeBytes]
  have hbytes_lt : ∀ b ∈ u64ToBeBytes v, b < 256 := by
    intro b hb
    obtain ⟨i, _, rfl⟩ := List.mem_map.mp hb
    exact Nat.lt_succ_of_le Nat.and_le_right
  simp only [Hex.to_bytes]
  rw [drop0xLower_eq_self _ (fun c hc => (u64HexDigits16_chars v c hc).2.2.1),
    u64HexDigits16_length, if_neg (by norm_num),
    u64HexDigits16_eq_from_bytes, chunk2_from_bytes,
    hexToBytesLoop_ok_values (u64ToBeBytes v) 0 (List.replicate 8 0) (by simp)
      (by rw [hbytes_len]) hbytes_lt]
  simp

/-- Parsing the hex rendering of a u64 recovers the identifier. -/
theorem from_str_to_hex (v : Nat) (hv : v < 2 ^ 64) :
    Nano64.from_str ((Nano64.mk v).to_hex) = .ok (Nano64.mk v) := by
  have hchars : ∀ c ∈ u64HexDigits16 v, c ≠ 'x' ∧ c ≠ 'X' := fun c hc =>
    ⟨(u64HexDigits16_chars v c hc).2.2.1, (u64HexDigits16_chars v c hc).2.2.2⟩
  have hbytes_len : (u64ToBeBytes v).length = 8 := by simp [u64ToBeBytes]
  unfold Nano64.from_str
  rw [to_hex_filter, drop0xEitherCase_eq_self _ hchars]
  dsimp only
  rw [u64HexDigits16_length, if_neg (by norm_num), hex_to_bytes_of_digits]
  dsimp only
  rw [hbytes_len, if_neg (by norm_num), u64_beBytes_roundtrip v hv]

/-! ### C9 -/

/-- C9: hex encoding format and round trip.  For every `v < 2 ^ 64`, `to_hex`
is the big-endian 16-character uppercase hex rendering of the value, with one
`-` separator after the 11th character and no prefix (17 characters in
total), and parsing it back recovers exactly the identifier. -/
theorem c9_to_hex_format_roundtrip (v : Nat) (hv : v < 2 ^ 64) :
    (∃ l1 l2, (Nano64.new v).to_hex = l1 ++ '-' :: l2 ∧
      l1.length = 11 ∧ l2.length = 5) ∧
    (Nano64.new v).to_hex.length = 17 ∧
    (Nano64.new v).to_hex.filter (fun c => c ≠ '-') = Hex.from_bytes (u64ToBeBytes v) ∧
    ((Nano64.new v).to_hex.filter (fun c => c ≠ '-')).length = 16 ∧
    (∀ c ∈ (Nano64.new v).to_hex.filter (fun c => c ≠ '-'),
      c ∈ "0123456789ABCDEF".toList) ∧
    Nano64.from_str ((Nano64.new v).to_hex) = .ok (Nano64.new v) := by
  have hlen := u64HexDigits16_length v
  have hfe := u64HexDigits16_eq_from_bytes v
  have hfilter := to_hex_filter v
  simp only [Nano64.new]
  refine ⟨⟨(u64HexDigits16 v).take 11, (u64HexDigits16 v).drop 11, rfl, ?_, ?_⟩,
    ?_, ?_, ?_, ?_, from_str_to_hex v hv⟩
  · rw [List.length_take]
    omega
  · rw [List.length_drop]
    omega
  · show ((u64HexDigits16 v).take 11 ++ '-' :: (u64HexDigits16 v).drop 11).length = 17
    rw [List.length_append, List.length_take, List.length_cons, List.length_drop]
    omega
  · rw [hfilter, hfe]
  · rw [hfilter]
    omega
  · rw [hfilter]
    exact fun c hc => (u64HexDigits16_chars v c hc).1

/-- C9 witness: format and round trip at the concrete value
`0x123456789ABCDEF0`. -/
theorem c9_to_hex_format_roundtrip_witness :
    0x123456789ABCDEF0 < 2 ^ 64 ∧
    (Nano64.new 0x123456789ABCDEF0).to_hex.length = 17 ∧
    Nano64.from_str ((Nano64.new 0x123456789ABCDEF0).to_hex) =
      .ok (Nano64.new 0x123456789ABCDEF0) :=
  ⟨by norm_num,
    (c9_to_hex_format_roundtrip 0x123456789ABCDEF0 (by norm_num)).2.1,
    (c9_to_hex_format_roundtrip 0x123456789ABCDEF0 (by norm_num)).2.2.2.2.2⟩

end RsNano64
